import Mathlib

/-!
Verification development for the chat-controller tool-call orchestration
engine (`js/chat-controller.js`).  JavaScript strings are modelled as
`List Char` (code points); JS objects are modelled as ordered key/value
lists, which preserves the insertion order that `JSON.stringify` and
`JSON.parse` use.  Fallible operations return `Option` / `Except`.
-/

/-! ### Character and list-of-character utilities (JS string primitives) -/

/-- The left-brace character, `\x7b`. -/
def lbraceChar : Char := Char.ofNat 123

/-- The right-brace character, `\x7d`. -/
def rbraceChar : Char := Char.ofNat 125

/-- Whitespace as matched by the JavaScript regex class `\s` and by
`String.prototype.trim` (restricted to the ASCII range). -/
def regexWs (c : Char) : Bool :=
  c = ' ' || c = '\t' || c = '\n' || c = '\r' || c = '\x0B' || c = '\x0C'

/-- Whitespace accepted between JSON tokens by `JSON.parse`. -/
def jsonWs (c : Char) : Bool :=
  c = ' ' || c = '\t' || c = '\n' || c = '\r'

/-- JS `String.prototype.trim` on a character list. -/
def trimL (cs : List Char) : List Char :=
  ((cs.dropWhile regexWs).reverse.dropWhile regexWs).reverse

/-- ASCII lower-casing of one character (JS `toLowerCase` on ASCII input). -/
def toLowerChar (c : Char) : Char :=
  if 'A' ≤ c && c ≤ 'Z' then Char.ofNat (c.toNat + 32) else c

/-- JS `String.prototype.toLowerCase` on a character list (ASCII range). -/
def toLowerL (cs : List Char) : List Char := cs.map toLowerChar

/-- JS `String.prototype.startsWith`: `isPrefixL pat cs` holds when `pat`
is a prefix of `cs`. -/
def isPrefixL : List Char → List Char → Bool
  | [], _ => true
  | _ :: _, [] => false
  | p :: ps, c :: cs => p = c && isPrefixL ps cs

/-- Case-insensitive prefix test (used for the `/```json/i` fence regex). -/
def isPrefixCI (pat cs : List Char) : Bool :=
  isPrefixL (toLowerL pat) (toLowerL cs)

/-- Index of the first occurrence of `pat` in `cs` (JS `String.indexOf`). -/
def findSubL (pat : List Char) : List Char → Option Nat
  | [] => if pat.isEmpty then some 0 else none
  | c :: rest =>
    if isPrefixL pat (c :: rest) then some 0
    else (findSubL pat rest).map (· + 1)

/-- JS `String.prototype.includes`. -/
def containsSubL (pat cs : List Char) : Bool := (findSubL pat cs).isSome

/-! ### JSON values

JS objects are ordered field lists; `JSON.parse` produces fields in source
order and `JSON.stringify` emits them in that order (none of the keys used
by the tool-call protocol are array-index-like, so the JS integer-key
reordering rule never applies).  Numbers are restricted to integers, the
only numeric values appearing in the tool-call protocol (`start`,
`length`). -/

inductive Json where
  | null
  | bool (b : Bool)
  | num (n : Int)
  | str (s : String)
  | arr (elems : List Json)
  | obj (fields : List (String × Json))
deriving Repr

/-- JSON string escaping as performed by `JSON.stringify`. -/
def escapeJsonChar (c : Char) : List Char :=
  if c = '"' then ['\\', '"']
  else if c = '\\' then ['\\', '\\']
  else if c = '\x08' then ['\\', 'b']
  else if c = '\t' then ['\\', 't']
  else if c = '\n' then ['\\', 'n']
  else if c = '\x0C' then ['\\', 'f']
  else if c = '\r' then ['\\', 'r']
  else if c.toNat < 32 then
    ['\\', 'u', '0', '0',
     Char.ofNat (if c.toNat / 16 < 10 then 48 + c.toNat / 16 else 87 + c.toNat / 16),
     Char.ofNat (if c.toNat % 16 < 10 then 48 + c.toNat % 16 else 87 + c.toNat % 16)]
  else [c]

/-- A JSON string literal (quotes plus escaped body), as `JSON.stringify`
emits it. -/
def quoteJson (cs : List Char) : List Char :=
  '"' :: (cs.flatMap escapeJsonChar) ++ ['"']

mutual

/-- `JSON.stringify` (no spacing argument), producing a character list. -/
def stringifyJson : Json → List Char
  | .null => "null".data
  | .bool true => "true".data
  | .bool false => "false".data
  | .num n => (toString n).data
  | .str s => quoteJson s.data
  | .arr xs => '[' :: stringifyElems xs ++ [']']
  | .obj fs => lbraceChar :: stringifyFields fs ++ [rbraceChar]

/-- Serialize array elements, comma separated. -/
def stringifyElems : List Json → List Char
  | [] => []
  | [x] => stringifyJson x
  | x :: y :: rest => stringifyJson x ++ ',' :: stringifyElems (y :: rest)

/-- Serialize object members, comma separated. -/
def stringifyFields : List (String × Json) → List Char
  | [] => []
  | [(k, v)] => quoteJson k.data ++ ':' :: stringifyJson v
  | (k, v) :: f :: rest =>
    quoteJson k.data ++ ':' :: stringifyJson v ++ ',' :: stringifyFields (f :: rest)

end

/-! ### JSON parsing (`JSON.parse`)

Recursive descent with a fuel parameter (structural recursion on the
fuel); `parseJson` supplies fuel `2 * length + 2`, which exceeds the
number of recursive calls any input can cause, since at least one
character is consumed for every two nested calls. -/

/-- Convert a hex digit to its value. -/
def hexVal (c : Char) : Option Nat :=
  if '0' ≤ c && c ≤ '9' then some (c.toNat - 48)
  else if 'a' ≤ c && c ≤ 'f' then some (c.toNat - 87)
  else if 'A' ≤ c && c ≤ 'F' then some (c.toNat - 55)
  else none

/-- Parse the body of a JSON string (opening quote already consumed),
returning the decoded content and the remaining input after the closing
quote.  Raw control characters are rejected, escape sequences are
decoded, exactly as `JSON.parse` does. -/
def parseStringBody : List Char → Option (List Char × List Char)
  | [] => none
  | c :: rest =>
    if c = '"' then some ([], rest)
    else if c = '\\' then
      match rest with
      | [] => none
      | e :: rest2 =>
        if e = '"' then (parseStringBody rest2).map (fun r => ('"' :: r.1, r.2))
        else if e = '\\' then (parseStringBody rest2).map (fun r => ('\\' :: r.1, r.2))
        else if e = '/' then (parseStringBody rest2).map (fun r => ('/' :: r.1, r.2))
        else if e = 'b' then (parseStringBody rest2).map (fun r => ('\x08' :: r.1, r.2))
        else if e = 'f' then (parseStringBody rest2).map (fun r => ('\x0C' :: r.1, r.2))
        else if e = 'n' then (parseStringBody rest2).map (fun r => ('\n' :: r.1, r.2))
        else if e = 'r' then (parseStringBody rest2).map (fun r => ('\r' :: r.1, r.2))
        else if e = 't' then (parseStringBody rest2).map (fun r => ('\t' :: r.1, r.2))
        else if e = 'u' then
          match rest2 with
          | h1 :: h2 :: h3 :: h4 :: rest3 =>
            match hexVal h1, hexVal h2, hexVal h3, hexVal h4 with
            | some a, some b, some c3, some d =>
              (parseStringBody rest3).map
                (fun r => (Char.ofNat (((a * 16 + b) * 16 + c3) * 16 + d) :: r.1, r.2))
            | _, _, _, _ => none
          | _ => none
        else none
    else if c.toNat < 32 then none
    else (parseStringBody rest).map (fun r => (c :: r.1, r.2))

/-- Parse a JSON integer literal (sign and digits; leading zeros are
rejected as in the JSON grammar).  Fractional and exponent forms do not
occur in the tool-call protocol and are not accepted. -/
def parseNumber (cs : List Char) : Option (Json × List Char) :=
  let (neg, cs1) :=
    match cs with
    | c :: rest => if c = '-' then (true, rest) else (false, cs)
    | [] => (false, cs)
  let digits := cs1.takeWhile Char.isDigit
  let rest := cs1.dropWhile Char.isDigit
  if digits.isEmpty then none
  else if digits.length > 1 && digits.headD '0' = '0' then none
  else
    let v : Nat := digits.foldl (fun acc d => acc * 10 + (d.toNat - 48)) 0
    some (.num (if neg then -(v : Int) else (v : Int)), rest)

mutual

/-- Parse one JSON value after skipping leading whitespace. -/
def parseValue : Nat → List Char → Option (Json × List Char)
  | 0, _ => none
  | fuel + 1, cs =>
    let cs := cs.dropWhile jsonWs
    if isPrefixL "null".data cs then some (.null, cs.drop 4)
    else if isPrefixL "true".data cs then some (.bool true, cs.drop 4)
    else if isPrefixL "false".data cs then some (.bool false, cs.drop 5)
    else
      match cs with
      | [] => none
      | c :: rest =>
        if c = '"' then
          (parseStringBody rest).map (fun r => (.str (String.mk r.1), r.2))
        else if c = lbraceChar then
          let rest2 := rest.dropWhile jsonWs
          match rest2 with
          | d :: rest3 => if d = rbraceChar then some (.obj [], rest3)
                          else (parseMembers fuel rest2 []).map
                            (fun p => (Json.obj p.1, p.2))
          | [] => none
        else if c = '[' then
          let rest2 := rest.dropWhile jsonWs
          match rest2 with
          | d :: rest3 => if d = ']' then some (.arr [], rest3)
                          else (parseElems fuel rest2 []).map
                            (fun p => (Json.arr p.1, p.2))
          | [] => none
        else parseNumber cs

/-- Parse the members of a JSON object (after `{` and absent the
empty-object case), accumulating fields in source order. -/
def parseMembers : Nat → List Char → List (String × Json) →
    Option (List (String × Json) × List Char)
  | 0, _, _ => none
  | fuel + 1, cs, acc =>
    let cs := cs.dropWhile jsonWs
    match cs with
    | c :: rest =>
      if c = '"' then
        match parseStringBody rest with
        | some (key, rest2) =>
          let rest3 := rest2.dropWhile jsonWs
          match rest3 with
          | d :: rest4 =>
            if d = ':' then
              match parseValue fuel rest4 with
              | some (v, rest5) =>
                let rest6 := rest5.dropWhile jsonWs
                match rest6 with
                | e :: rest7 =>
                  if e = ',' then parseMembers fuel rest7 (acc ++ [(String.mk key, v)])
                  else if e = rbraceChar then some (acc ++ [(String.mk key, v)], rest7)
                  else none
                | [] => none
              | none => none
            else none
          | [] => none
        | none => none
      else none
    | [] => none

/-- Parse the elements of a JSON array (after `[` and absent the
empty-array case). -/
def parseElems : Nat → List Char → List Json → Option (List Json × List Char)
  | 0, _, _ => none
  | fuel + 1, cs, acc =>
    match parseValue fuel cs with
    | some (v, rest) =>
      let rest2 := rest.dropWhile jsonWs
      match rest2 with
      | e :: rest3 =>
        if e = ',' then parseElems fuel rest3 (acc ++ [v])
        else if e = ']' then some (acc ++ [v], rest3)
        else none
      | [] => none
    | none => none

end

/-- `JSON.parse`: the whole input (with surrounding whitespace) must be a
single JSON value, otherwise the parse fails (`Option.none` models the
thrown `SyntaxError`). -/
def parseJson (cs : List Char) : Option Json :=
  match parseValue (2 * cs.length + 2) cs with
  | some (v, rest) => if (rest.dropWhile jsonWs).isEmpty then some v else none
  | none => none

/-! ### Tool-call extraction (`extractToolCall`, chat-controller.js 29-70) -/

/-- Field lookup on a JS object (`obj.key`); `none` models `undefined`. -/
def findFieldValue : List (String × Json) → String → Option Json
  | [], _ => none
  | (k, v) :: rest, key => if k = key then some v else findFieldValue rest key

/-- JS property access `j.key` on a parsed JSON value. -/
def jsonGetField : Json → String → Option Json
  | .obj fs, key => findFieldValue fs key
  | _, _ => none

/-- JS truthiness of a JSON value (`undefined` is handled by
`fieldTruthy`). -/
def jsonTruthy : Json → Bool
  | .null => false
  | .bool b => b
  | .num n => decide (n ≠ 0)
  | .str s => !s.isEmpty
  | .arr _ => true
  | .obj _ => true

/-- Truthiness of `j.key` (false when the field is absent). -/
def fieldTruthy (j : Json) (key : String) : Bool :=
  match jsonGetField j key with
  | some v => jsonTruthy v
  | none => false

/-- The acceptance test both extraction strategies apply:
`obj.tool && obj.arguments`. -/
def isToolCallObj (j : Json) : Bool :=
  fieldTruthy j "tool" && fieldTruthy j "arguments"

/-- Locate the contents of the first fenced block matched by the regex
(three backticks, `json`, lazy body, three backticks, `i` flag): the text
between the first case-insensitive seven-character opener that has a later
three-backtick closer, trimmed.  The lazy group combined with the final
`.trim()` the caller applies yields exactly the trimmed text up to the
first closing fence; if the earliest opener has no closer, no later opener
can have one, since any later opener itself begins with a closer. -/
def fenceContent : List Char → Option (List Char)
  | [] => none
  | c :: rest =>
    if isPrefixCI "```json".data (c :: rest) then
      match findSubL "```".data ((c :: rest).drop 7) with
      | some k => some (trimL (((c :: rest).drop 7).take k))
      | none => none
    else fenceContent rest

/-- Scan for the balanced-brace candidate starting at the head of `cs`
(which is `{`): track depth, and return the slice up to the position
where the depth first returns to zero (chat-controller.js 44-62; brace
characters inside string literals count, as in the source). -/
def braceCandidate (acc : List Char) (depth : Nat) : List Char → Option (List Char)
  | [] => none
  | c :: rest =>
    let d := if c = lbraceChar then depth + 1
             else if c = rbraceChar then depth - 1
             else depth
    if d = 0 then some (acc ++ [c]) else braceCandidate (acc ++ [c]) d rest

/-- Fallback strategy: at each `{`, take the balanced-brace slice, try to
parse it, and accept the first slice that parses to an object with truthy
`tool` and `arguments`; on failure continue scanning after that `{`. -/
def balancedScan : List Char → Option Json
  | [] => none
  | c :: rest =>
    if c = lbraceChar then
      match braceCandidate [] 0 (c :: rest) with
      | some cand =>
        match parseJson cand with
        | some obj => if isToolCallObj obj then some obj else balancedScan rest
        | none => balancedScan rest
      | none => balancedScan rest
    else balancedScan rest

/-- `extractToolCall` (chat-controller.js 29-70): try the fenced-JSON
strategy first, then the balanced-brace scan; `none` models the `null`
return (the function never throws — parse failures fall through). -/
def extractToolCall (text : String) : Option Json :=
  match fenceContent text.data with
  | some inner =>
    match parseJson inner with
    | some obj => if isToolCallObj obj then some obj else balancedScan text.data
    | none => balancedScan text.data
  | none => balancedScan text.data

/-! ### Conversation turns and controller state -/

/-- Roles of conversation turns. -/
inductive Role where
  | system
  | user
  | assistant
deriving DecidableEq, Repr

/-- A conversation turn (`{ role, content }`). -/
structure Turn where
  role : Role
  content : String
deriving DecidableEq, Repr

/-- The controller's mutable module state relevant to tool dispatch:
`chatHistory`, `totalTokens`, `executedToolCalls` (a set of serialized
calls, modelled as a list of keys) and the `hasResumed` flag. -/
structure ControllerState where
  chatHistory : List Turn
  totalTokens : Nat
  executedToolCalls : List String
  hasResumed : Bool
deriving DecidableEq, Repr

/-- The dispatcher's fingerprint: `JSON.stringify(call)`
(chat-controller.js 527). -/
def fingerprint (call : Json) : String := String.mk (stringifyJson call)

/-- Truthiness of `call.skipContinue`. -/
def callSkipContinue (call : Json) : Bool := fieldTruthy call "skipContinue"

/-- The system instruction seeded by `init` (chat-controller.js 92-110). -/
def systemToolPrompt : String :=
  "You are an AI assistant with access to three external tools. Use them to gather information when needed.\n\nVERY IMPORTANT:\n- When calling a tool, output ONLY a JSON object and NOTHING ELSE, EXACTLY in this format:\n  \x7b\"tool\":\"web_search\",\"arguments\":\x7b\"query\":\"your query\"\x7d\x7d\n  \x7b\"tool\":\"read_url\",\"arguments\":\x7b\"url\":\"https://example.com\",\"start\":0,\"length\":1122\x7d\x7d\n  \x7b\"tool\":\"instant_answer\",\"arguments\":\x7b\"query\":\"your query\"\x7d\x7d\n- Do NOT wrap the JSON in markdown or add any extra text, explanations, or formatting.\n- Wait for the tool result before continuing your reasoning or answer.\n- If you do not follow these instructions, your output will not be processed.\n\nTOOLS:\n1. web_search(query) â†’ Returns an array of search results [\x7btitle, url, snippet\x7d, â€¦].\n2. read_url(url[, start, length]) â†’ Returns text content from the specified URL slice.\n3. instant_answer(query) â†’ Returns a JSON object from DuckDuckGo Instant Answer API.\n\nFor questions requiring up-to-date information, choose the appropriate tool and fetch the necessary data. Only after gathering all relevant information should you proceed to answer.\n\nBegin your interaction."

/-- `init` (chat-controller.js 86-118): clears `executedToolCalls` and
reseeds `chatHistory` with the system turn; `totalTokens` and
`hasResumed` are untouched. -/
def init (s : ControllerState) : ControllerState :=
  { s with executedToolCalls := [],
           chatHistory := [⟨.system, systemToolPrompt⟩] }

/-- `clearChat` (chat-controller.js 132-136): resets the history and the
token count only — `executedToolCalls` is not cleared. -/
def clearChat (s : ControllerState) : ControllerState :=
  { s with chatHistory := [], totalTokens := 0 }

/-- The start of `sendMessage` (chat-controller.js 279-281): the resume
flag is reset for the new message cycle. -/
def sendMessageStart (s : ControllerState) : ControllerState :=
  { s with hasResumed := false }

/-- The duplicate-detection and continuation bookkeeping of one
`processToolCall` invocation (chat-controller.js 526-535 and 632-655):
a duplicate key short-circuits (no execution, no continuation); otherwise
the key is recorded and the tool body runs, and in the `finally` block a
continuation fires exactly when the call does not carry `skipContinue`
and `hasResumed` is still unset, which then sets `hasResumed`.  Returns
(new state, physically executed?, continuation triggered?). -/
def processToolCallStep (s : ControllerState) (call : Json) :
    ControllerState × Bool × Bool :=
  if fingerprint call ∈ s.executedToolCalls then
    (s, false, false)
  else
    let s1 := { s with executedToolCalls := fingerprint call :: s.executedToolCalls }
    if callSkipContinue call || s1.hasResumed then
      (s1, true, false)
    else
      ({ s1 with hasResumed := true }, true, true)

/-- Number of physical executions with fingerprint `f` along a sequence
of `processToolCall` invocations (nested and continuation-driven calls
flattened in chronological order). -/
def runExecCount : ControllerState → List Json → String → Nat
  | _, [], _ => 0
  | s, c :: rest, f =>
    (if (processToolCallStep s c).2.1 = true ∧ fingerprint c = f then 1 else 0) +
      runExecCount (processToolCallStep s c).1 rest f

/-- Number of continuations triggered along a sequence of
`processToolCall` invocations. -/
def runContCount : ControllerState → List Json → Nat
  | _, [] => 0
  | s, c :: rest =>
    (if (processToolCallStep s c).2.2 = true then 1 else 0) +
      runContCount (processToolCallStep s c).1 rest

/-- Number of calls in the sequence whose fingerprint is `f`. -/
def fingerprintCount : List Json → String → Nat
  | [], _ => 0
  | c :: rest, f => (if fingerprint c = f then 1 else 0) + fingerprintCount rest f

/-! ### Pagination (`read_url` loop, chat-controller.js 565-612) -/

/-- One emitted chunk: the turn records the slice at `offset` and whether
further content exists. -/
structure Chunk where
  offset : Nat
  snippet : String
  hasMore : Bool
deriving DecidableEq, Repr

/-- Interpretation of one continuation decision
(chat-controller.js 591-609): the raw model answer, trimmed and
lower-cased, must start with `yes`; an unparseable response or transport
error (the `Except.error` case, caught by the surrounding `try`) leaves
`shouldFetchMore` at its initial `false`. -/
def interpretDecision : Except String String → Bool
  | .ok answer => isPrefixL "yes".data (toLowerL (trimL answer.data))
  | .error _ => false

/-- The chunking loop body (chat-controller.js 579-611), fuelled.  Each
iteration emits the slice `[offset, offset+C)`; if more content remains
the model is asked and the loop continues only on an affirmative
interpretation; otherwise it stops.  Fuel `length + 1` (supplied by
`paginate`) always suffices because the offset advances by `C ≥ 1` per
iteration. -/
def paginateAux (cs : List Char) (C : Nat) (ans : Nat → Except String String) :
    Nat → Nat → List Chunk
  | 0, _ => []
  | fuel + 1, offset =>
    if offset < cs.length then
      Chunk.mk offset (String.mk ((cs.drop offset).take C))
          (decide (offset + C < cs.length)) ::
        (if offset + C < cs.length then
          (if interpretDecision (ans offset) then
            paginateAux cs C ans fuel (offset + C)
          else [])
        else [])
    else []

/-- The pagination loop over fetched content `full`, chunk size `C`,
starting offset `start`, with `ans offset` the model's decision response
after the chunk at `offset`. -/
def paginate (full : String) (C start : Nat) (ans : Nat → Except String String) :
    List Chunk :=
  paginateAux full.data C ans (full.data.length + 1) start

/-- Modelled from the spec: `ToolsService.readUrl` (file
`js/tools-service.js`, not present under `src/`).  Per the spec the URL
must match an http/https prefix; an invalid URL yields an error instead
of dispatching the fetch.  `net` is the network oracle giving the page
text for a fetched URL. -/
def readUrl (net : String → String) (url : String) : Except String String :=
  if isPrefixL "http://".data url.data || isPrefixL "https://".data url.data then
    .ok (net url)
  else
    .error "Invalid URL: must match an http/https prefix"

/-- Outcome of the `read_url` branch of the dispatcher: either the
user-visible error message (fetch skipped) or the emitted chunk turns. -/
inductive ReadUrlOutcome where
  | fetchError (message : String)
  | pages (chunks : List Chunk)
deriving DecidableEq, Repr

/-- The `read_url` branch of `processToolCall`
(chat-controller.js 565-612): fetch via `ToolsService.readUrl`; on error
show the skip message and emit nothing; on success normalize `start`
(non-negative number or 0) and the chunk size (positive number or 1122)
and run the pagination loop.  The second component counts physical
fetches of the URL-reading backend. -/
def dispatchReadUrl (net : String → String) (ans : Nat → Except String String)
    (url : String) (startArg lenArg : Option Int) : ReadUrlOutcome × Nat :=
  match readUrl net url with
  | .error _ =>
    (.fetchError ("[read_url] Skipped content from " ++ url ++ " due to an error."), 0)
  | .ok pageText =>
    if pageText.isEmpty then
      (.pages [], 1)
    else
      let start : Nat := match startArg with
        | some n => if 0 ≤ n then n.toNat else 0
        | none => 0
      let C : Nat := match lenArg with
        | some n => if 0 < n then n.toNat else 1122
        | none => 1122
      (.pages (paginate pageText C start ans), 1)

/-! ### CoT segmentation (chat-controller.js 170-249) -/

/-- Match the step-header regex piece (`Step`, `\s*`, `\d+`, `:`) at the
head of `cs`, returning its length.  Backtracking cannot produce another
parse: the whitespace run and the digit run are maximal and must be
followed directly by a colon. -/
def stepHeaderEnd (cs : List Char) : Option Nat :=
  if isPrefixL "Step".data cs then
    let afterStep := cs.drop 4
    let w := (afterStep.takeWhile regexWs).length
    let afterWs := afterStep.drop w
    let d := (afterWs.takeWhile Char.isDigit).length
    if d = 0 then none
    else
      match afterWs.drop d with
      | c :: _ => if c = ':' then some (4 + w + d + 1) else none
      | [] => none
  else none

/-- Leftmost match of the step-header regex: start index and (absolute)
end index. -/
def findStepHeader : List Char → Option (Nat × Nat)
  | [] => none
  | c :: rest =>
    match stepHeaderEnd (c :: rest) with
    | some e => some (0, e)
    | none => (findStepHeader rest).map (fun p => (p.1 + 1, p.2 + 1))

/-- The test `/Step\s*\d+:/.test(text)`. -/
def hasStepHeader (cs : List Char) : Bool := (findStepHeader cs).isSome

/-- Group 1 of `/(Step\s*\d+:.*?)(?=Answer:|$)/s`: from the leftmost
step header up to (but excluding) the first `Answer:` occurring at or
after the header's end, or to the end of the text. -/
def cotThinkingMatch (cs : List Char) : Option (List Char) :=
  match findStepHeader cs with
  | none => none
  | some (i, hend) =>
    let stop := match findSubL "Answer:".data (cs.drop hend) with
      | some k => hend + k
      | none => cs.length
    some ((cs.drop i).take (stop - i))

/-- Group 1 of `/Answer:(.*)$/s`: everything after the first `Answer:`. -/
def cotAnswerMatch (cs : List Char) : Option (List Char) :=
  (findSubL "Answer:".data cs).map (fun k => cs.drop (k + 7))

/-- The segmenter's result object (`partial` is a reserved word in Lean,
so that field is called `isPartialResp`). -/
structure CoTProcessed where
  thinking : String
  answer : String
  hasStructuredResponse : Bool
  isPartialResp : Bool
  stage : Option String
deriving DecidableEq, Repr

/-- The module-level cache `lastThinkingContent` / `lastAnswerContent`. -/
structure CoTCache where
  lastThinkingContent : String
  lastAnswerContent : String
deriving DecidableEq, Repr

/-- `processCoTResponse` (chat-controller.js 170-208): on a full
structured response both cache fields are updated; on a partial response
(trimmed text starting with `Step`, no `Answer:`) only the thinking cache
is updated and the *cached* answer is returned; otherwise the whole text
is the answer and the cache is untouched. -/
def processCoTResponse (st : CoTCache) (response : String) :
    CoTCache × CoTProcessed :=
  let cs := response.data
  match cotThinkingMatch cs, cotAnswerMatch cs with
  | some th, some an =>
    let thinking := String.mk (trimL th)
    let answer := String.mk (trimL an)
    (⟨thinking, answer⟩, ⟨thinking, answer, true, false, none⟩)
  | _, _ =>
    if isPrefixL "Step".data (trimL cs) && !containsSubL "Answer:".data cs then
      let thinking := String.mk (trimL cs)
      ({ st with lastThinkingContent := thinking },
       ⟨thinking, st.lastAnswerContent, true, true, some "thinking"⟩)
    else
      (st, ⟨"", response, false, false, none⟩)

/-- `processPartialCoTResponse` (chat-controller.js 215-249), the
segmenter used on every streaming increment.  It is stateless: in the
thinking-only stage the answer field is the empty string. -/
def processPartialCoTResponse (fullText : String) : CoTProcessed :=
  let cs := fullText.data
  if hasStepHeader cs && !containsSubL "Answer:".data cs then
    ⟨String.mk (trimL cs), "", true, true, some "thinking"⟩
  else if hasStepHeader cs && containsSubL "Answer:".data cs then
    match cotThinkingMatch cs, cotAnswerMatch cs with
    | some th, some an =>
      ⟨String.mk (trimL th), String.mk (trimL an), true, false, none⟩
    | _, _ => ⟨"", fullText, false, false, none⟩
  else ⟨"", fullText, false, false, none⟩

/-! ### The OpenAI send path (chat-controller.js 279-373)

Only the evolution of the `chatHistory` turn sequence is modelled: the
model transport is an oracle giving the reply of each loop iteration, and
the turns appended inside `processToolCall` (tool results, and whatever a
nested continuation appends) are an oracle `toolTurns`. -/

/-- `enhanceWithCoT` (chat-controller.js 151-163). -/
def enhanceWithCoT (message : String) : String :=
  message ++ "\n\nPlease think step-by-step, prefix each step with \"Step X:\". As soon as you decide a tool call is needed, stop and output ONLY the JSON object for the call (nothing else), for example:\n\nStep 1: Identify need to search for KLCI constituents.\n\x7b\"tool\":\"web_search\",\"arguments\":\x7b\"query\":\"FTSE Bursa Malaysia KLCI index constituents\"\x7d\x7d\n\nNo further text. The system will run that tool and resume. If no tool call is needed, after your steps output:\n\nAnswer: [your final, concise answer here]\n"

/-- The `do`/`while` loop of `handleOpenAIMessage`
(chat-controller.js 341-372) restricted to its effect on `chatHistory`:
each iteration consumes one oracle reply; a reply with a tool call
appends the raw reply as an assistant turn plus whatever
`processToolCall` appends, then loops; otherwise the loop breaks and the
final reply is appended as an assistant turn.  An exhausted oracle models
a still-pending transport. -/
def openAILoop (toolTurns : Json → List Turn) :
    List String → List Turn → List Turn
  | [], hist => hist
  | reply :: rest, hist =>
    match extractToolCall reply with
    | some call =>
      if fieldTruthy call "tool" then
        openAILoop toolTurns rest ((hist ++ [⟨.assistant, reply⟩]) ++ toolTurns call)
      else
        hist ++ [⟨.assistant, reply⟩]
    | none => hist ++ [⟨.assistant, reply⟩]

/-- `handleOpenAIMessage` (chat-controller.js 336-373) on `chatHistory`:
the user input is pushed first (line 338), then the generation loop
runs. -/
def handleOpenAIMessageHist (toolTurns : Json → List Turn)
    (replies : List String) (hist : List Turn) (userInput : String) : List Turn :=
  openAILoop toolTurns replies (hist ++ [⟨.user, userInput⟩])

/-- The gpt-model branch of `sendMessage` (chat-controller.js 299-310) on
`chatHistory`: the (possibly CoT-enhanced) message is pushed before
delegating to `handleOpenAIMessage` with the same text. -/
def sendMessageGptHist (toolTurns : Json → List Turn) (replies : List String)
    (hist : List Turn) (message : String) (enableCoT : Bool) : List Turn :=
  let enhancedMessage := if enableCoT then enhanceWithCoT message else message
  handleOpenAIMessageHist toolTurns replies
    (hist ++ [⟨.user, enhancedMessage⟩]) enhancedMessage

/-- The shape of a tool call on the wire: `tool` then `arguments`, with
the argument fields in the given order. -/
def mkToolCall (tool : String) (args : List (String × Json)) : Json :=
  .obj [("tool", .str tool), ("arguments", .obj args)]

/-! ### Theorems -/

/-- Every run of `openAILoop` only appends turns to the history it is
given. -/
theorem openAILoop_append (toolTurns : Json → List Turn) :
    ∀ (replies : List String) (hist : List Turn),
      ∃ rest, openAILoop toolTurns replies hist = hist ++ rest := by
  intro replies
  induction replies with
  | nil => exact fun hist => ⟨[], (List.append_nil hist).symm⟩
  | cons r rs ih =>
    intro hist
    unfold openAILoop
    cases hx : extractToolCall r with
    | none => exact ⟨[⟨.assistant, r⟩], rfl⟩
    | some call =>
      by_cases ht : fieldTruthy call "tool"
      · obtain ⟨rest, hrest⟩ := ih ((hist ++ [⟨.assistant, r⟩]) ++ toolTurns call)
        refine ⟨⟨.assistant, r⟩ :: (toolTurns call ++ rest), ?_⟩
        simp [ht]
        simpa using hrest
      · exact ⟨[⟨.assistant, r⟩], by simp [ht]⟩

/-- C1 (counterexample): two tool calls with the same tool name and the
same argument values — the argument field lists are permutations of one
another — receive *different* fingerprints, because the fingerprint is
the literal `JSON.stringify` serialization, which preserves key order. -/
theorem fingerprint_not_key_order_invariant :
    jsonGetField (mkToolCall "read_url"
        [("url", Json.str "https://a.com"), ("start", Json.num 0)]) "tool" =
      jsonGetField (mkToolCall "read_url"
        [("start", Json.num 0), ("url", Json.str "https://a.com")]) "tool" ∧
    List.Perm [("url", Json.str "https://a.com"), ("start", Json.num 0)]
      [("start", Json.num 0), ("url", Json.str "https://a.com")] ∧
    fingerprint (mkToolCall "read_url"
        [("url", Json.str "https://a.com"), ("start", Json.num 0)]) ≠
      fingerprint (mkToolCall "read_url"
        [("start", Json.num 0), ("url", Json.str "https://a.com")]) :=
  ⟨rfl, List.Perm.swap _ _ _, by decide⟩

/-- C1 (amended): the fingerprint is invariant only under identity of the
serialized form — two calls with the same tool name and the same argument
key/value sequence *in the same order* map to the same fingerprint. -/
theorem fingerprint_same_ordered_args (t₁ t₂ : String)
    (a₁ a₂ : List (String × Json)) (ht : t₁ = t₂) (ha : a₁ = a₂) :
    fingerprint (mkToolCall t₁ a₁) = fingerprint (mkToolCall t₂ a₂) := by
  subst ht; subst ha; rfl

/-- Witness for `fingerprint_same_ordered_args` at a concrete call. -/
theorem fingerprint_same_ordered_args_witness :
    fingerprint (mkToolCall "web_search" [("query", Json.str "x")]) =
      fingerprint (mkToolCall "web_search" [("query", Json.str "x")]) :=
  fingerprint_same_ordered_args "web_search" "web_search"
    [("query", Json.str "x")] [("query", Json.str "x")] rfl rfl

/-- C8 (counterexample): `clearChat` does *not* empty the executed-call
set — after clearing, the previously recorded fingerprint is still
present, and the recurring call short-circuits instead of being
physically executed again. -/
theorem clearChat_keeps_executed_calls :
    (clearChat ⟨[⟨.assistant, "result"⟩], 7,
        [fingerprint (mkToolCall "instant_answer" [("query", Json.str "q")])],
        false⟩).executedToolCalls ≠ [] ∧
    (processToolCallStep
        (clearChat ⟨[⟨.assistant, "result"⟩], 7,
          [fingerprint (mkToolCall "instant_answer" [("query", Json.str "q")])],
          false⟩)
        (mkToolCall "instant_answer" [("query", Json.str "q")])).2.1 = false := by
  exact ⟨by decide, by decide⟩

/-- C8 (amended): only `init` resets the executed-call set; `clearChat`
leaves it unchanged (it resets just the history and the token count). -/
theorem init_resets_executed_calls (s : ControllerState) :
    (init s).executedToolCalls = [] ∧
    (clearChat s).executedToolCalls = s.executedToolCalls :=
  ⟨rfl, rfl⟩

/-- C6: the extractor on the four specified inputs — plain prose yields
no call, a fenced `web_search` call is returned, an inline
`instant_answer` object surrounded by prose is returned, an object with a
missing `arguments` field yields no call — and the fenced strategy takes
priority over an earlier inline candidate. -/
theorem extractToolCall_examples :
    extractToolCall "no json here" = none ∧
    extractToolCall "```json\n\x7b\"tool\":\"web_search\",\"arguments\":\x7b\"query\":\"x\"\x7d\x7d\n```" =
      some (mkToolCall "web_search" [("query", Json.str "x")]) ∧
    extractToolCall "prefix \x7b\"tool\":\"instant_answer\",\"arguments\":\x7b\"query\":\"y\"\x7d\x7d suffix" =
      some (mkToolCall "instant_answer" [("query", Json.str "y")]) ∧
    extractToolCall "\x7b\"tool\":\"x\"\x7d" = none ∧
    extractToolCall "pre \x7b\"tool\":\"inline\",\"arguments\":\x7b\"q\":\"1\"\x7d\x7d mid ```json\n\x7b\"tool\":\"fenced\",\"arguments\":\x7b\"q\":\"2\"\x7d\x7d\n``` post" =
      some (mkToolCall "fenced" [("q", Json.str "2")]) :=
  ⟨rfl, rfl, rfl, rfl, rfl⟩

/-- C10: in the gpt-model path, the (possibly CoT-enhanced) user message
is appended twice — once by `sendMessage` before delegation and once at
the start of `handleOpenAIMessage` — so the resulting history contains
two consecutive identical user turns right after the previous history. -/
theorem gpt_user_turn_duplicated (toolTurns : Json → List Turn)
    (replies : List String) (hist : List Turn) (message : String)
    (enableCoT : Bool) :
    ∃ rest, sendMessageGptHist toolTurns replies hist message enableCoT =
      hist ++ [⟨.user, if enableCoT then enhanceWithCoT message else message⟩,
               ⟨.user, if enableCoT then enhanceWithCoT message else message⟩] ++ rest := by
  obtain ⟨rest, hrest⟩ := openAILoop_append toolTurns replies
    ((hist ++ [⟨.user, if enableCoT then enhanceWithCoT message else message⟩]) ++
      [⟨.user, if enableCoT then enhanceWithCoT message else message⟩])
  refine ⟨rest, ?_⟩
  simp only [sendMessageGptHist, handleOpenAIMessageHist]
  rw [hrest]
  simp [List.append_assoc]

/-- Characterization of the post-step executed-call set. -/
theorem step_executedToolCalls (s : ControllerState) (c : Json) :
    ((processToolCallStep s c).1).executedToolCalls =
      if fingerprint c ∈ s.executedToolCalls then s.executedToolCalls
      else fingerprint c :: s.executedToolCalls := by
  unfold processToolCallStep
  split
  next h => simp [h]
  next h =>
    dsimp only
    split <;> simp [h]

/-- Characterization of the executed flag: the call runs exactly when its
fingerprint is new. -/
theorem step_executed_flag (s : ControllerState) (c : Json) :
    (processToolCallStep s c).2.1 = !decide (fingerprint c ∈ s.executedToolCalls) := by
  unfold processToolCallStep
  split
  next h => simp [h]
  next h =>
    dsimp only
    split <;> simp [h]

/-- Characterization of the post-step resume flag. -/
theorem step_hasResumed (s : ControllerState) (c : Json) :
    ((processToolCallStep s c).1).hasResumed =
      (s.hasResumed || (processToolCallStep s c).2.2) := by
  unfold processToolCallStep
  split
  next h => simp
  next h =>
    dsimp only
    split <;> simp

/-- Characterization of the continuation flag. -/
theorem step_cont_flag (s : ControllerState) (c : Json) :
    (processToolCallStep s c).2.2 =
      (!decide (fingerprint c ∈ s.executedToolCalls) &&
        !callSkipContinue c && !s.hasResumed) := by
  unfold processToolCallStep
  split
  next h => simp [h]
  next h =>
    dsimp only
    split
    next h2 =>
      rcases Bool.or_eq_true_iff.mp h2 with h3 | h3 <;> simp [h, h3]
    next h2 =>
      simp only [Bool.or_eq_true_iff, not_or, Bool.not_eq_true] at h2
      simp [h, h2.1, h2.2]

/-- Once a fingerprint is recorded it stays recorded. -/
theorem mem_executed_step {s : ControllerState} {c : Json} {k : String}
    (h : k ∈ s.executedToolCalls) :
    k ∈ ((processToolCallStep s c).1).executedToolCalls := by
  rw [step_executedToolCalls]
  split
  · exact h
  · exact List.mem_cons_of_mem _ h

/-- A fingerprint already recorded is never executed again along any
subsequent sequence of calls. -/
theorem runExecCount_zero_of_mem :
    ∀ (cs : List Json) (s : ControllerState) (f : String),
      f ∈ s.executedToolCalls → runExecCount s cs f = 0 := by
  intro cs
  induction cs with
  | nil => intro s f _; rfl
  | cons c rest ih =>
    intro s f hf
    unfold runExecCount
    rw [ih _ _ (mem_executed_step hf)]
    by_cases hc : fingerprint c = f
    · have : (processToolCallStep s c).2.1 = false := by
        rw [step_executed_flag]
        simp [hc ▸ hf]
      simp [this]
    · simp [hc]

/-- From a state in which `f` is unrecorded, the number of physical
executions with fingerprint `f` is `min 1 (number of calls with
fingerprint f)`. -/
theorem runExecCount_min :
    ∀ (cs : List Json) (s : ControllerState) (f : String),
      f ∉ s.executedToolCalls →
      runExecCount s cs f = min 1 (fingerprintCount cs f) := by
  intro cs
  induction cs with
  | nil => intro s f _; rfl
  | cons c rest ih =>
    intro s f hf
    unfold runExecCount fingerprintCount
    by_cases hc : fingerprint c = f
    · have hnot : fingerprint c ∉ s.executedToolCalls := hc ▸ hf
      have hex : (processToolCallStep s c).2.1 = true := by
        rw [step_executed_flag]; simp [hnot]
      have hmem : f ∈ ((processToolCallStep s c).1).executedToolCalls := by
        rw [step_executedToolCalls, if_neg hnot]
        exact hc ▸ List.mem_cons_self _ _
      rw [runExecCount_zero_of_mem rest _ f hmem]
      simp [hex, hc]
    · have hcontrib : ¬((processToolCallStep s c).2.1 = true ∧ fingerprint c = f) := by
        intro hcon; exact hc hcon.2
      have hmem : f ∉ ((processToolCallStep s c).1).executedToolCalls := by
        rw [step_executedToolCalls]
        split
        · exact hf
        · intro hin
          rcases List.mem_cons.mp hin with h | h
          · exact hc h.symm
          · exact hf h
      rw [ih _ _ hmem]
      simp [hcontrib, hc]

/-- C2: within one conversation lifetime (after `init`), if two or more
`processToolCall` invocations carry the same fingerprint, the tool side
effect is physically executed exactly once; every later invocation
detects the duplicate and short-circuits. -/
theorem dispatch_idempotent_per_fingerprint (s₀ : ControllerState)
    (cs : List Json) (f : String) (h : 2 ≤ fingerprintCount cs f) :
    runExecCount (init s₀) cs f = 1 := by
  have h0 : f ∉ (init s₀).executedToolCalls := by simp [init]
  rw [runExecCount_min cs _ f h0, Nat.min_eq_left (by omega)]

/-- Witness for `dispatch_idempotent_per_fingerprint`: the same
`web_search` call dispatched twice executes once. -/
theorem dispatch_idempotent_per_fingerprint_witness :
    runExecCount (init ⟨[], 0, [], false⟩)
      [mkToolCall "web_search" [("query", Json.str "x")],
       mkToolCall "web_search" [("query", Json.str "x")]]
      (fingerprint (mkToolCall "web_search" [("query", Json.str "x")])) = 1 :=
  dispatch_idempotent_per_fingerprint ⟨[], 0, [], false⟩
    [mkToolCall "web_search" [("query", Json.str "x")],
     mkToolCall "web_search" [("query", Json.str "x")]]
    (fingerprint (mkToolCall "web_search" [("query", Json.str "x")])) (by decide)

/-- After the resume flag is set, no further continuation ever fires
within the message cycle. -/
theorem runContCount_zero_of_resumed :
    ∀ (cs : List Json) (s : ControllerState),
      s.hasResumed = true → runContCount s cs = 0 := by
  intro cs
  induction cs with
  | nil => intro s _; rfl
  | cons c rest ih =>
    intro s hs
    unfold runContCount
    have hcont : (processToolCallStep s c).2.2 = false := by
      rw [step_cont_flag, hs]; simp
    have hres : ((processToolCallStep s c).1).hasResumed = true := by
      rw [step_hasResumed, hs]; rfl
    rw [ih _ hres]
    simp [hcont]

/-- From any state, a sequence of `processToolCall` invocations triggers
at most one continuation. -/
theorem runContCount_le_one :
    ∀ (cs : List Json) (s : ControllerState), runContCount s cs ≤ 1 := by
  intro cs
  induction cs with
  | nil => intro s; exact Nat.zero_le 1
  | cons c rest ih =>
    intro s
    unfold runContCount
    by_cases hc : (processToolCallStep s c).2.2 = true
    · have hres : ((processToolCallStep s c).1).hasResumed = true := by
        rw [step_hasResumed, hc]; simp
      rw [runContCount_zero_of_resumed rest _ hres]
      simp [hc]
    · rw [Bool.not_eq_true] at hc
      simp only [hc]
      simpa using ih ((processToolCallStep s c).1)

/-- C3: one top-level user message (`sendMessage` resets the resume flag
at its start) triggers at most one continuation across the whole cycle;
in particular later duplicate-tool-call skips never start a second
continuation chain. -/
theorem at_most_one_continuation_per_send (s : ControllerState)
    (cs : List Json) :
    runContCount (sendMessageStart s) cs ≤ 1 :=
  runContCount_le_one cs (sendMessageStart s)

/-- C7 (counterexample): the streaming segmenter
`processPartialCoTResponse` regresses the answer to empty.  An earlier
call on text with both markers yields the non-empty answer `b`, but a
later partial call on text in which the answer marker is absent returns
the empty string rather than a cached last-known answer — the function is
stateless. -/
theorem processPartialCoTResponse_regresses_answer :
    (processPartialCoTResponse "Step 1: a\nAnswer: b").answer = "b" ∧
    (processPartialCoTResponse "Step 1: a").answer = "" ∧
    ("b" : String) ≠ "" :=
  ⟨rfl, rfl, by decide⟩

/-- C7 (amended): the answer-caching behaviour holds for the
*non-streaming* segmenter `processCoTResponse`: after a call that matches
both markers (populating `lastAnswerContent`), a later partial call —
trimmed text starting with `Step` and no answer marker — returns exactly
the cached answer of the earlier call. -/
theorem processCoTResponse_caches_answer (st : CoTCache) (t₁ t₂ : String)
    (th an : List Char)
    (h1 : cotThinkingMatch t₁.data = some th)
    (h2 : cotAnswerMatch t₁.data = some an)
    (h3 : isPrefixL "Step".data (trimL t₂.data) = true)
    (h4 : containsSubL "Answer:".data t₂.data = false) :
    ((processCoTResponse (processCoTResponse st t₁).1 t₂).2).answer =
      ((processCoTResponse st t₁).2).answer := by
  have h5 : cotAnswerMatch t₂.data = none := by
    unfold containsSubL at h4
    cases hf : findSubL "Answer:".data t₂.data with
    | none => simp [cotAnswerMatch, hf]
    | some k => rw [hf] at h4; simp at h4
  have hfirst : processCoTResponse st t₁ =
      (⟨String.mk (trimL th), String.mk (trimL an)⟩,
       ⟨String.mk (trimL th), String.mk (trimL an), true, false, none⟩) := by
    unfold processCoTResponse
    dsimp only
    rw [h1, h2]
  rw [hfirst]
  unfold processCoTResponse
  dsimp only
  cases hth : cotThinkingMatch t₂.data <;> simp [h5, h3, h4]

/-- Witness for `processCoTResponse_caches_answer` at concrete texts. -/
theorem processCoTResponse_caches_answer_witness :
    ((processCoTResponse (processCoTResponse ⟨"", ""⟩ "Step 1: a Answer: b").1
        "Step 2: c").2).answer =
      ((processCoTResponse ⟨"", ""⟩ "Step 1: a Answer: b").2).answer :=
  processCoTResponse_caches_answer ⟨"", ""⟩ "Step 1: a Answer: b" "Step 2: c"
    "Step 1: a ".data " b".data rfl rfl rfl rfl

/-- C9: a `read_url` call whose URL does not match an http/https prefix
produces only the user-visible error turn and never invokes the
URL-reading backend — the result is independent of the network oracle
and the fetch count is zero. -/
theorem invalid_url_no_dispatch (net : String → String)
    (ans : Nat → Except String String) (url : String)
    (startArg lenArg : Option Int)
    (h : (isPrefixL "http://".data url.data ||
          isPrefixL "https://".data url.data) = false) :
    dispatchReadUrl net ans url startArg lenArg =
      (.fetchError ("[read_url] Skipped content from " ++ url ++
        " due to an error."), 0) := by
  unfold dispatchReadUrl readUrl
  rw [h]
  rfl

/-- Witness for `invalid_url_no_dispatch` at a concrete non-http URL. -/
theorem invalid_url_no_dispatch_witness :
    dispatchReadUrl (fun _ => "page text") (fun _ => Except.ok "yes")
      "ftp://example.com" none none =
      (.fetchError "[read_url] Skipped content from ftp://example.com due to an error.", 0) :=
  invalid_url_no_dispatch (fun _ => "page text") (fun _ => Except.ok "yes")
    "ftp://example.com" none none (by decide)

/-- Chunk-count bound for the pagination loop: from offset `o` at most
`ceil((length - o) / C)` chunks are emitted, whatever the decisions. -/
theorem paginateAux_length_le (cs : List Char) (C : Nat) (hC : 0 < C)
    (ans : Nat → Except String String) :
    ∀ (fuel offset : Nat),
      (paginateAux cs C ans fuel offset).length ≤ (cs.length - offset + C - 1) / C := by
  intro fuel
  induction fuel with
  | zero => intro offset; simp [paginateAux]
  | succ fuel ih =>
    intro offset
    unfold paginateAux
    by_cases h : offset < cs.length
    · rw [if_pos h]
      by_cases hm : offset + C < cs.length
      · rw [if_pos hm]
        by_cases hd : interpretDecision (ans offset) = true
        · rw [if_pos hd]
          have hrec := ih (offset + C)
          simp only [List.length_cons]
          have heq : cs.length - (offset + C) + C - 1 + C
              = cs.length - offset + C - 1 := by omega
          have hdiv : (cs.length - (offset + C) + C - 1) / C + 1
              = (cs.length - offset + C - 1) / C := by
            rw [← Nat.add_div_right _ hC, heq]
          omega
        · rw [if_neg hd]
          simp only [List.length_cons, List.length_nil]
          rw [Nat.le_div_iff_mul_le hC]
          omega
      · rw [if_neg hm]
        simp only [List.length_cons, List.length_nil]
        rw [Nat.le_div_iff_mul_le hC]
        omega
    · rw [if_neg h]
      simp

/-- With affirmative decisions throughout and enough fuel, the loop runs
to the end of the content and the final emitted chunk reports no further
content. -/
theorem paginateAux_last_no_more (cs : List Char) (C : Nat) (hC : 0 < C)
    (ans : Nat → Except String String)
    (hyes : ∀ n, interpretDecision (ans n) = true) :
    ∀ (fuel offset : Nat), offset < cs.length →
      cs.length ≤ offset + fuel * C →
      ∃ ch, (paginateAux cs C ans fuel offset).getLast? = some ch ∧
        ch.hasMore = false := by
  intro fuel
  induction fuel with
  | zero => intro offset h1 h2; simp at h2; omega
  | succ fuel ih =>
    intro offset h1 h2
    unfold paginateAux
    rw [if_pos h1]
    by_cases hm : offset + C < cs.length
    · rw [if_pos hm]
      simp only [hyes offset, if_true]
      have hmul : (fuel + 1) * C = fuel * C + C := by ring
      have hfuel : cs.length ≤ (offset + C) + fuel * C := by omega
      obtain ⟨ch, hch, hmore⟩ := ih (offset + C) hm hfuel
      refine ⟨ch, ?_, hmore⟩
      cases htail : paginateAux cs C ans fuel (offset + C) with
      | nil => rw [htail] at hch; simp at hch
      | cons b t =>
        rw [htail] at hch
        rw [List.getLast?_cons_cons]
        exact hch
    · rw [if_neg hm]
      exact ⟨⟨offset, String.mk ((cs.drop offset).take C),
          decide (offset + C < cs.length)⟩, rfl, by simp [hm]⟩

/-- C4: for fetched content of length `L` and (positive) chunk size `C`,
the pagination loop emits at most `ceil(L / C)` chunks regardless of the
decision outcomes, and if every decision is affirmative (content fully
consumed) the last emitted chunk is marked as having no further
content. -/
theorem read_url_pagination_terminates (full : String) (C start : Nat)
    (ans : Nat → Except String String) (hC : 0 < C) :
    (paginate full C start ans).length ≤ (full.length + C - 1) / C ∧
    ((∀ n, interpretDecision (ans n) = true) → start < full.length →
      ∃ ch, (paginate full C start ans).getLast? = some ch ∧
        ch.hasMore = false) := by
  constructor
  · have h := paginateAux_length_le full.data C hC ans (full.data.length + 1) start
    have hmono : (full.data.length - start + C - 1) / C ≤
        (full.data.length + C - 1) / C :=
      Nat.div_le_div_right (by omega)
    exact le_trans h hmono
  · intro hyes hstart
    have hone : full.data.length + 1 ≤ (full.data.length + 1) * C := by
      calc full.data.length + 1 = (full.data.length + 1) * 1 := by ring
        _ ≤ (full.data.length + 1) * C := Nat.mul_le_mul_left _ hC
    exact paginateAux_last_no_more full.data C hC ans hyes
      (full.data.length + 1) start hstart (by omega)

/-- Witness for `read_url_pagination_terminates`: a 5-character page with
chunk size 2 and all-affirmative decisions. -/
theorem read_url_pagination_terminates_witness :
    (paginate "abcde" 2 0 (fun _ => Except.ok "yes")).length ≤
      ("abcde".length + 2 - 1) / 2 ∧
    (∃ ch, (paginate "abcde" 2 0 (fun _ => Except.ok "yes")).getLast? = some ch ∧
      ch.hasMore = false) := by
  have h := read_url_pagination_terminates "abcde" 2 0
    (fun _ => Except.ok "yes") (by decide)
  exact ⟨h.1, h.2 (fun _ => rfl) (by decide)⟩

/-- Unfolding equation of the fuelled pagination loop at a successor
fuel value. -/
theorem paginateAux_succ (cs : List Char) (C : Nat)
    (ans : Nat → Except String String) (fuel offset : Nat) :
    paginateAux cs C ans (fuel + 1) offset =
      if offset < cs.length then
        Chunk.mk offset (String.mk ((cs.drop offset).take C))
            (decide (offset + C < cs.length)) ::
          (if offset + C < cs.length then
            (if interpretDecision (ans offset) then
              paginateAux cs C ans fuel (offset + C)
            else [])
          else [])
      else [] := rfl

/-- C5: a pagination step with content remaining fetches the next chunk
exactly when the decision is interpreted affirmatively, and the
interpretation is: the trimmed, lower-cased answer starts with `yes`; a
transport error or unparseable response (the `Except.error` case) is
interpreted as stop. -/
theorem pagination_decision_fail_closed (answer e full : String) (C : Nat)
    (ans : Nat → Except String String) (fuel offset : Nat)
    (h1 : offset < full.data.length) (h2 : offset + C < full.data.length) :
    interpretDecision (Except.ok answer) =
      isPrefixL "yes".data (toLowerL (trimL answer.data)) ∧
    interpretDecision (Except.error e) = false ∧
    paginateAux full.data C ans (fuel + 1) offset =
      Chunk.mk offset (String.mk ((full.data.drop offset).take C)) true ::
        (if interpretDecision (ans offset) then
          paginateAux full.data C ans fuel (offset + C)
        else []) := by
  refine ⟨rfl, rfl, ?_⟩
  rw [paginateAux_succ, if_pos h1, if_pos h2]
  simp only [List.cons.injEq, Chunk.mk.injEq, true_and, and_true,
    decide_eq_true_eq]
  exact h2

/-- Witness for `pagination_decision_fail_closed` at concrete inputs. -/
theorem pagination_decision_fail_closed_witness :
    interpretDecision (Except.ok " YES ") =
      isPrefixL "yes".data (toLowerL (trimL " YES ".data)) ∧
    interpretDecision (Except.error "boom") = false ∧
    paginateAux "abcdef".data 2 (fun _ => Except.ok "no") (0 + 1) 0 =
      Chunk.mk 0 (String.mk (("abcdef".data.drop 0).take 2)) true ::
        (if interpretDecision ((fun _ => Except.ok "no") 0) then
          paginateAux "abcdef".data 2 (fun _ => Except.ok "no") 0 (0 + 2)
        else []) :=
  pagination_decision_fail_closed " YES " "boom" "abcdef" 2
    (fun _ => Except.ok "no") 0 0 (by decide) (by decide)
